import Mathlib

/-!
Verification of the streaming media-transcoding relay (Express + fluent-ffmpeg
service). The definitions below are a shallow embedding of the request handler
in the disconnect-aware variant of the service (the variant the design document
designates as canonical) together with its pure helper `getFileName`.

External platform primitives that the handler calls (the JS regular-expression
engine on the fixed pattern, the WHATWG URL parser, Node `path.basename` and
`path.extname`) are embedded as explicit Lean functions mirroring their
documented behaviour on the inputs the handler feeds them.
-/

namespace Comoe

/-! ## Characters used by the filename pattern -/

/-- The single-quote character (code 39). -/
def squote : Char := Char.ofNat 39

/-- The double-quote character (code 34). -/
def dquote : Char := Char.ofNat 34

/-! ## The regular expression `filename[^;=\n]*=(([quote]).*?\2|[^;\n]*)`

`getFileName` runs `/filename[^;=\n]*=((["quote]).*?\2|[^;\n]*)/.exec(contentDisposition)`
and reads capture group 1.  We embed `exec` for this fixed pattern:
leftmost match; at the match position the literal `filename`, then a greedy run
of characters outside `; = \n`, then `=`, then group 1: first a quoted
alternative (a quote character, a lazy run of non-line-terminator characters,
the same quote again), and if that fails a greedy run of characters outside
`; \n` (possibly empty). -/

/-- Scan for the closing quote `q`: returns the content before the quote and the
rest after it, or `none` when no closing quote occurs before a line terminator
(the lazy `.*?` cannot cross `\n` or `\r`). -/
def scanQuote (q : Char) : List Char → Option (List Char × List Char)
  | [] => none
  | c :: cs =>
    if c = q then some ([], cs)
    else if c = '\n' ∨ c = '\r' then none
    else
      match scanQuote q cs with
      | some (pre, rest) => some (c :: pre, rest)
      | none => none

/-- Character class `[^;=\n]` between `filename` and `=`. -/
def notSemiEqNl (c : Char) : Bool := c ≠ ';' && c ≠ '=' && c ≠ '\n'

/-- Character class `[^;\n]` of the unquoted alternative of group 1. -/
def notSemiNl (c : Char) : Bool := c ≠ ';' && c ≠ '\n'

/-- Capture group 1, evaluated on the input right after the `=`.  The quoted
alternative is tried first; on failure the unquoted run (possibly empty) always
succeeds. -/
def group1 (l : List Char) : List Char :=
  match l with
  | [] => []
  | c :: cs =>
    if c = squote ∨ c = dquote then
      match scanQuote c cs with
      | some (pre, _) => c :: (pre ++ [c])
      | none => List.takeWhile notSemiNl l
    else List.takeWhile notSemiNl l

/-- Try to match the whole pattern at the head of `l`; returns capture group 1.
The greedy class `[^;=\n]*` excludes `=`, so the run before the `=` is forced
maximal and no backtracking arises. -/
def tryMatchAt (l : List Char) : Option (List Char) :=
  if ("filename".data).isPrefixOf l then
    match (l.drop 8).dropWhile notSemiEqNl with
    | '=' :: after => some (group1 after)
    | _ => none
  else none

/-- `exec`: scan match positions left to right, return group 1 of the leftmost
match. -/
def execFilename : List Char → Option (List Char)
  | [] => none
  | c :: cs =>
    match tryMatchAt (c :: cs) with
    | some g => some g
    | none => execFilename cs

/-- The guard `if (matches && matches[1])` of `getFileName`: a token is used
only when the overall match succeeded and the captured group is non-empty
(an empty capture is falsy in JS). -/
def extractToken (cd : Option (List Char)) : Option (List Char) :=
  match cd with
  | none => none
  | some s =>
    match execFilename s with
    | some g => if g = [] then none else some g
    | none => none

/-- `token.replace(/[quotes]/g, "")`: delete every single- and double-quote
character anywhere in the token. -/
def stripQuotes (l : List Char) : List Char :=
  l.filter (fun c => !((c = squote : Bool) || (c = dquote : Bool)))

/-! ## URL pathname, basename, extname -/

/-- Characters allowed in a URL scheme after the first letter. -/
def isSchemeTail (c : Char) : Bool := c.isAlphanum || c = '+' || c = '-' || c = '.'

/-- Scan the remainder of a scheme up to the `:`. -/
def dropSchemeAux : List Char → Option (List Char)
  | [] => none
  | c :: cs => if c = ':' then some cs else if isSchemeTail c then dropSchemeAux cs else none

/-- Strip a `scheme:` prefix (a letter followed by scheme characters and a
colon); `none` when the input has no such prefix. -/
def dropScheme : List Char → Option (List Char)
  | [] => none
  | c :: cs => if c.isAlpha then dropSchemeAux cs else none

/-- Models the platform WHATWG URL parser as used by `getFileName`, restricted
to what the handler reads: for an authority-based URL
`scheme://host/path?query#fragment` it returns the pathname (defaulting to
`/`); a string without a valid scheme or with an empty host is a parse failure
(`new URL` throws).  Percent-encoding, dot-segment normalization and
non-authority schemes are outside the modelled fragment and are treated as
parse failures. -/
def urlPathname (url : List Char) : Option (List Char) :=
  match dropScheme url with
  | none => none
  | some rest =>
    match rest with
    | '/' :: '/' :: r =>
      let notDelim : Char → Bool := fun c => c ≠ '/' && c ≠ '?' && c ≠ '#'
      if r.takeWhile notDelim = [] then none
      else
        match r.dropWhile notDelim with
        | [] => some ['/']
        | '/' :: tail => some ('/' :: tail.takeWhile (fun c => c ≠ '?' && c ≠ '#'))
        | _ => some ['/']
    | _ => none

/-- Node `path.posix.basename`: drop trailing slashes, then keep the suffix
after the last remaining slash. -/
def basenameL (p : List Char) : List Char :=
  let t := (p.reverse.dropWhile (fun c => c = '/')).reverse
  (t.reverse.takeWhile (fun c => c ≠ '/')).reverse

/-- Split a list at its last dot: `some (pre, suf)` with `pre ++ suf = l` and
`suf` starting at the last `.`. -/
def splitLastDot : List Char → Option (List Char × List Char)
  | [] => none
  | c :: cs =>
    match splitLastDot cs with
    | some (pre, suf) => some (c :: pre, suf)
    | none => if c = '.' then some ([], c :: cs) else none

/-- Node `path.posix.extname` on a slash-free name: the suffix from the last
dot, except that a name with no dot, a name whose only relevant dot is its
first character, and the special name `..` have no extension. -/
def extnameL (f : List Char) : List Char :=
  if f = ['.', '.'] then []
  else
    match splitLastDot f with
    | none => []
    | some (pre, suf) => if pre = [] then [] else suf

/-- `toLowerCase` as used on the extension before comparing with the
recognized set; ASCII letters only (the recognized extensions are ASCII). -/
def lowerL (l : List Char) : List Char := l.map Char.toLower

/-- The recognized video extensions of `getFileName`. -/
def videoExts : List (List Char) :=
  [".mp4".data, ".mkv".data, ".avi".data, ".mov".data, ".webm".data, ".flv".data]

/-- The URL branch of `getFileName`: basename of the parsed pathname, with
`.mp4` appended when the (lowercased) extension is absent or unrecognized; the
catch clause turns a URL parse failure into the fixed default `video.mp4`. -/
def urlFallbackName (url : List Char) : List Char :=
  match urlPathname url with
  | none => "video.mp4".data
  | some p =>
    let fileName := basenameL p
    let ext := lowerL (extnameL fileName)
    if ext.isEmpty || !(videoExts.contains ext) then fileName ++ ".mp4".data
    else fileName

/-- `getFileName(contentDisposition, url)` over character lists: the
header-derived token (quotes deleted) when one is extracted, otherwise the
URL-derived fallback.  Total by construction, mirroring the `try`/`catch` that
makes the JS function never throw. -/
def getFileNameL (cd : Option (List Char)) (url : List Char) : List Char :=
  match extractToken cd with
  | some tok => stripQuotes tok
  | none => urlFallbackName url

/-- `getFileName` on strings, as in the source. -/
def getFileName (cd : Option String) (url : String) : String :=
  ⟨getFileNameL (cd.map String.data) url.data⟩

/-- A name satisfying the output guarantee claimed for the resolver: non-empty
and ending (up to ASCII letter case) in a recognized video extension. -/
def goodName (f : List Char) : Bool :=
  !f.isEmpty && videoExts.any (fun e => e.isSuffixOf (lowerL f))

/-! ## The transcode invocation and `cleanup`

A fluent-ffmpeg command object: `procStarted` records whether the underlying
engine process exists (it does for every command the handler creates and
pipes), `alive` whether that process is still running.  `kill` on a command
whose process is missing raises a `TypeError`; on a process that already
exited it is a no-op. -/

structure Invocation where
  procStarted : Bool
  alive : Bool
deriving DecidableEq, Repr

/-- `ffmpegCommand.kill(SIGKILL)`: terminate the process when one exists,
raise when the command has no process; killing an already-exited process is a
no-op. -/
def killSignal (inv : Invocation) : Except String Invocation :=
  if inv.procStarted then Except.ok { inv with alive := false }
  else Except.error "TypeError: no process to kill"

/-- The handler's `cleanup`: when a command exists, try to kill it, swallowing
(logging) any error.  Returns the new command state and whether an exception
escaped, which is always `false`. -/
def cleanup (cmd : Option Invocation) : Option Invocation × Bool :=
  match cmd with
  | none => (none, false)
  | some inv =>
    match killSignal inv with
    | Except.ok inv2 => (some inv2, false)
    | Except.error _ => (some inv, false)

/-! ## The progress handler -/

/-- The progress payload delivered by the engine; the completion fraction
`percent` may be undefined. -/
structure Progress where
  percent : Option ℚ
deriving DecidableEq, Repr

/-- Reading `progress.percent` in JS: a `TypeError` when the payload itself is
missing. -/
def jsPercent (o : Option Progress) : Except String (Option ℚ) :=
  match o with
  | none => Except.error "TypeError: cannot read percent of undefined"
  | some p => Except.ok p.percent

/-- The `progress` event handler: the short-circuit guard
`progress && progress.percent !== undefined && isClientConnected` reads
`percent` only after `progress` is known to be present; when the guard passes
it logs `Math.round(percent * 100) / 100`.  The result is the logged value, or
`none` when nothing is logged, or a JS error had one been raised. -/
def onProgress (progress : Option Progress) (isClientConnected : Bool) :
    Except String (Option ℚ) :=
  match progress with
  | none => Except.ok none
  | some _ =>
    match jsPercent progress with
    | Except.error e => Except.error e
    | Except.ok none => Except.ok none
    | Except.ok (some x) =>
      if isClientConnected then Except.ok (some ((round (x * 100) : ℚ) / 100))
      else Except.ok none

/-! ## The request handler of `GET /compress`

The handler is event-driven: an initial synchronous phase (parameter check,
HEAD probe, GET stream open, response-header setup, command creation, piping),
then reactions to events delivered by the streams and the engine.  The
embedding records the per-request state and folds the handler's reactions over
a list of delivered events. -/

structure HState where
  /-- The `isClientConnected` flag, written by the `close` listener. -/
  clientConnected : Bool
  /-- The `ffmpegCommand` variable. -/
  cmd : Option Invocation
  /-- How many engine invocations this request has created. -/
  startCount : Nat
  /-- `res.setHeader` was called for the video response headers. -/
  videoHeadersSet : Bool
  /-- `res.headersSent`: headers were flushed to the wire (by the first body
  chunk or by an explicit status send). -/
  headersSent : Bool
  /-- Status code explicitly sent via `res.status(...).send(...)`. -/
  statusCode : Option Nat
  /-- Number of body chunks forwarded to the client. -/
  bodyChunks : Nat
  /-- The HEAD probe was issued. -/
  probeIssued : Bool
  /-- The GET stream request was issued. -/
  openIssued : Bool
  /-- A fault was surfaced (`console.error` or an error status). -/
  faultSurfaced : Bool
  /-- The response stream was ended (the piped engine output closed it). -/
  resEnded : Bool
deriving DecidableEq, Repr

/-- The request state at handler entry. -/
def initState : HState :=
  { clientConnected := true, cmd := none, startCount := 0, videoHeadersSet := false,
    headersSent := false, statusCode := none, bodyChunks := 0, probeIssued := false,
    openIssued := false, faultSurfaced := false, resEnded := false }

/-- `if (!res.headersSent) res.status(code).send(...)`: sending flushes the
headers. -/
def sendStatusIfUnsent (s : HState) (code : Nat) : HState :=
  if s.headersSent then s
  else { s with statusCode := some code, headersSent := true }

/-- Events delivered to the handler after the pipeline is wired. -/
inductive Ev
  /-- `req.on(close)`: the client transport closed. -/
  | close
  /-- A body chunk produced by the engine is forwarded to the client. -/
  | chunk
  /-- An engine progress sample (payload may be missing or lack `percent`). -/
  | progressEv (payload : Option Progress)
  /-- `response.data.on(error)`: the upstream input stream failed. -/
  | inputError
  /-- `ffmpegCommand.on(error)`. -/
  | engineError
  /-- `ffmpegCommand.on(end)`: natural completion. -/
  | engineEnd
deriving DecidableEq, Repr

/-- The handler's reaction to one delivered event, read off the registered
listeners:
* `close` only records the flag;
* a forwarded chunk flushes the headers;
* a progress sample only logs (see `onProgress`);
* an input-stream error runs `cleanup` and sends 500 when headers are unsent;
* an engine error logs and sends 500 only when the client is still connected
  (suppressed otherwise), runs `cleanup`, and the killed engine output ends
  the piped response (`pipe(res, end true)`);
* engine end runs `cleanup` and the finished output ends the response. -/
def step (s : HState) (e : Ev) : HState :=
  match e with
  | Ev.close => { s with clientConnected := false }
  | Ev.chunk => { s with headersSent := true, bodyChunks := s.bodyChunks + 1 }
  | Ev.progressEv _ => s
  | Ev.inputError =>
    sendStatusIfUnsent { s with cmd := (cleanup s.cmd).1, faultSurfaced := true } 500
  | Ev.engineError =>
    if s.clientConnected then
      { sendStatusIfUnsent { s with faultSurfaced := true } 500 with
        cmd := (cleanup s.cmd).1, resEnded := true }
    else { s with cmd := (cleanup s.cmd).1, resEnded := true }
  | Ev.engineEnd => { s with cmd := (cleanup s.cmd).1, resEnded := true }

/-- The environment of one request: whether the `url` parameter is present,
the outcomes of the probe and the stream open (`false` covering a throw, a
timeout, and a status at or above 400), whether the wiring after command
creation throws, and the events delivered afterwards. -/
structure Env where
  urlGiven : Bool
  probeOk : Bool
  openOk : Bool
  wireThrows : Bool
  events : List Ev

/-- The synchronous phase of the handler: the missing-parameter check, the
probe, the stream open, header setup and command creation; every failure lands
in the `catch`, which runs `cleanup` and sends 500 when headers are unsent.
Returns the state and whether the pipeline was wired (so events flow). -/
def runSetup (env : Env) : HState × Bool :=
  if env.urlGiven then
    let s1 : HState := { initState with probeIssued := true }
    if env.probeOk then
      let s2 : HState := { s1 with openIssued := true }
      if env.openOk then
        let s3 : HState :=
          { s2 with videoHeadersSet := true,
                    cmd := some { procStarted := true, alive := true },
                    startCount := s2.startCount + 1 }
        if env.wireThrows then
          (sendStatusIfUnsent { s3 with faultSurfaced := true, cmd := (cleanup s3.cmd).1 } 500,
           false)
        else (s3, true)
      else
        (sendStatusIfUnsent { s2 with faultSurfaced := true, cmd := (cleanup s2.cmd).1 } 500,
         false)
    else
      (sendStatusIfUnsent { s1 with faultSurfaced := true, cmd := (cleanup s1.cmd).1 } 500,
       false)
  else ({ initState with statusCode := some 400, headersSent := true }, false)

/-- The complete handler run: the synchronous phase, then the delivered events
when the pipeline was wired. -/
def run (env : Env) : HState :=
  if (runSetup env).2 then env.events.foldl step (runSetup env).1
  else (runSetup env).1

/-- All intermediate states of a run of the event phase. -/
def statesFrom (s : HState) : List Ev → List HState
  | [] => [s]
  | e :: es => s :: statesFrom (step s e) es

/-- All states a request passes through: entry, the state after the
synchronous phase, and every state of the event phase. -/
def statesAll (env : Env) : List HState :=
  initState ::
    (if (runSetup env).2 then statesFrom (runSetup env).1 env.events
     else [(runSetup env).1])

/-- Every invocation a command variable holds has a started process. -/
def optStarted (c : Option Invocation) : Bool :=
  match c with
  | none => true
  | some inv => inv.procStarted

/-- No invocation the command variable holds is still running. -/
def optDead (c : Option Invocation) : Bool :=
  match c with
  | none => true
  | some inv => !inv.alive

/-- Every command the handler holds has a started process (the handler only
ever stores a started invocation). -/
def cmdStarted (s : HState) : Bool := optStarted s.cmd

/-- No invocation held by the state is still running. -/
def cmdDead (s : HState) : Bool := optDead s.cmd

/-- Number of invocations alive in the state. -/
def aliveCount (s : HState) : Nat :=
  match s.cmd with
  | none => 0
  | some inv => if inv.alive then 1 else 0

/-- Events on which the handler tears the request down. -/
def isTerminalEv : Ev → Bool
  | Ev.inputError => true
  | Ev.engineError => true
  | Ev.engineEnd => true
  | _ => false

/-- The request reaches a terminal transition: a synchronous-phase failure or a
terminal event among the delivered events. -/
def reachesTerminal (env : Env) : Bool :=
  !env.urlGiven || !env.probeOk || !env.openOk || env.wireThrows ||
    env.events.any isTerminalEv

/-! ## Concrete scenarios used as witnesses and counterexamples -/

/-- A successful end-to-end request: pipeline wired, engine completes. -/
def envEndOk : Env := ⟨true, true, true, false, [Ev.engineEnd]⟩

/-- A request whose client disconnects mid-stream while the engine keeps
producing output. -/
def envDisconnect : Env := ⟨true, true, true, false, [Ev.close, Ev.chunk, Ev.chunk]⟩

/-- A wired request mid-stream: invocation running, headers flushed by earlier
body chunks. -/
def stStreaming : HState :=
  { initState with
    cmd := some ⟨true, true⟩, startCount := 1,
    videoHeadersSet := true, headersSent := true, bodyChunks := 2,
    probeIssued := true, openIssued := true }

/-- A wired request before any output: invocation running, headers not yet
flushed. -/
def stWired : HState :=
  { initState with
    cmd := some ⟨true, true⟩, startCount := 1,
    videoHeadersSet := true, probeIssued := true, openIssued := true }

/-! ## Helper lemmas: the filename resolver -/

theorem splitLastDot_eq (f : List Char) (pre suf : List Char)
    (h : splitLastDot f = some (pre, suf)) : pre ++ suf = f := by
  induction f generalizing pre suf with
  | nil => simp [splitLastDot] at h
  | cons c cs ih =>
    rw [splitLastDot] at h
    cases hcs : splitLastDot cs with
    | some ps =>
      obtain ⟨p2, s2⟩ := ps
      rw [hcs] at h
      simp only [Option.some.injEq, Prod.mk.injEq] at h
      obtain ⟨h1, h2⟩ := h
      subst h1; subst h2
      simpa using ih p2 s2 hcs
    | none =>
      rw [hcs] at h
      by_cases hc : c = '.'
      · rw [if_pos hc] at h
        simp only [Option.some.injEq, Prod.mk.injEq] at h
        obtain ⟨h1, h2⟩ := h
        subst h1; subst h2
        simp
      · rw [if_neg hc] at h
        exact absurd h (by simp)

theorem extnameL_suffix (f : List Char) : extnameL f <:+ f := by
  by_cases h2 : f = ['.', '.']
  · rw [extnameL, if_pos h2]
    exact List.nil_suffix
  · rw [extnameL, if_neg h2]
    cases hs : splitLastDot f with
    | none => exact List.nil_suffix
    | some ps =>
      obtain ⟨pre, suf⟩ := ps
      by_cases hp : pre = []
      · simp only [hp, if_pos rfl]
        exact List.nil_suffix
      · simp only [if_neg hp]
        exact ⟨pre, splitLastDot_eq f pre suf hs⟩

theorem lowerL_suffix {e l : List Char} (h : e <:+ l) : lowerL e <:+ lowerL l :=
  List.IsSuffix.map Char.toLower h

theorem urlFallbackName_good (url : List Char) : goodName (urlFallbackName url) = true := by
  rw [urlFallbackName]
  cases hp : urlPathname url with
  | none => decide
  | some p =>
    simp only
    by_cases hc : ((lowerL (extnameL (basenameL p))).isEmpty ||
        !(videoExts.contains (lowerL (extnameL (basenameL p))))) = true
    · rw [if_pos hc]
      rw [goodName, Bool.and_eq_true]
      constructor
      · simp
      · rw [List.any_eq_true]
        refine ⟨".mp4".data, by decide, ?_⟩
        rw [List.isSuffixOf_iff_suffix]
        have : lowerL (basenameL p ++ ".mp4".data) = lowerL (basenameL p) ++ ".mp4".data := by
          rw [lowerL, List.map_append]; rfl
        rw [this]
        exact List.suffix_append _ _
    · rw [if_neg hc]
      simp only [Bool.or_eq_true, not_or, Bool.not_eq_true] at hc
      obtain ⟨hne, hmem⟩ := hc
      have hmem2 : videoExts.contains (lowerL (extnameL (basenameL p))) = true := by
        simpa using hmem
      rw [goodName, Bool.and_eq_true]
      constructor
      · have hbp : basenameL p ≠ [] := by
          intro hnil
          rw [hnil] at hne
          exact absurd hne (by decide)
        simpa using hbp
      · rw [List.any_eq_true]
        refine ⟨lowerL (extnameL (basenameL p)), ?_, ?_⟩
        · simpa using hmem2
        · rw [List.isSuffixOf_iff_suffix]
          exact lowerL_suffix (extnameL_suffix _)

/-! ## Helper lemmas: cleanup and the event step -/

theorem optStarted_cleanup (c : Option Invocation) (h : optStarted c = true) :
    optStarted (cleanup c).1 = true := by
  cases c with
  | none => rfl
  | some inv =>
    obtain ⟨p, a⟩ := inv
    revert h
    cases p <;> cases a <;> decide

theorem optDead_cleanup (c : Option Invocation) (h : optStarted c = true) :
    optDead (cleanup c).1 = true := by
  cases c with
  | none => rfl
  | some inv =>
    obtain ⟨p, a⟩ := inv
    revert h
    cases p <;> cases a <;> decide

theorem optDead_cleanup_pres (c : Option Invocation) (h : optDead c = true) :
    optDead (cleanup c).1 = true := by
  cases c with
  | none => rfl
  | some inv =>
    obtain ⟨p, a⟩ := inv
    revert h
    cases p <;> cases a <;> decide

theorem sendStatus_startCount (s : HState) (c : Nat) :
    (sendStatusIfUnsent s c).startCount = s.startCount := by
  rw [sendStatusIfUnsent]; split_ifs <;> rfl

theorem sendStatus_cmd (s : HState) (c : Nat) :
    (sendStatusIfUnsent s c).cmd = s.cmd := by
  rw [sendStatusIfUnsent]; split_ifs <;> rfl

theorem step_startCount (s : HState) (e : Ev) : (step s e).startCount = s.startCount := by
  cases e with
  | close => rfl
  | chunk => rfl
  | progressEv p => rfl
  | inputError => rw [step, sendStatus_startCount]
  | engineError =>
    rw [step]
    split_ifs
    · rw [sendStatus_startCount]
    · rfl
  | engineEnd => rfl

theorem step_cmdStarted (s : HState) (e : Ev) (h : cmdStarted s = true) :
    cmdStarted (step s e) = true := by
  rw [cmdStarted] at h
  cases e with
  | close => exact h
  | chunk => exact h
  | progressEv p => exact h
  | inputError =>
    rw [step, cmdStarted, sendStatus_cmd]
    exact optStarted_cleanup _ h
  | engineError =>
    rw [step]
    split_ifs
    · exact optStarted_cleanup _ h
    · exact optStarted_cleanup _ h
  | engineEnd => exact optStarted_cleanup _ h

theorem step_cmdDead_pres (s : HState) (e : Ev) (h : cmdDead s = true) :
    cmdDead (step s e) = true := by
  rw [cmdDead] at h
  cases e with
  | close => exact h
  | chunk => exact h
  | progressEv p => exact h
  | inputError =>
    rw [step, cmdDead, sendStatus_cmd]
    exact optDead_cleanup_pres _ h
  | engineError =>
    rw [step]
    split_ifs
    · exact optDead_cleanup_pres _ h
    · exact optDead_cleanup_pres _ h
  | engineEnd => exact optDead_cleanup_pres _ h

theorem step_terminal_dead (s : HState) (e : Ev) (hs : cmdStarted s = true)
    (ht : isTerminalEv e = true) : cmdDead (step s e) = true := by
  rw [cmdStarted] at hs
  cases e with
  | close => simp [isTerminalEv] at ht
  | chunk => simp [isTerminalEv] at ht
  | progressEv p => simp [isTerminalEv] at ht
  | inputError =>
    rw [step, cmdDead, sendStatus_cmd]
    exact optDead_cleanup _ hs
  | engineError =>
    rw [step]
    split_ifs
    · exact optDead_cleanup _ hs
    · exact optDead_cleanup _ hs
  | engineEnd => exact optDead_cleanup _ hs

theorem foldl_cmdStarted (evs : List Ev) (s : HState) (h : cmdStarted s = true) :
    cmdStarted (List.foldl step s evs) = true := by
  induction evs generalizing s with
  | nil => exact h
  | cons e es ih => exact ih (step s e) (step_cmdStarted s e h)

theorem foldl_dead_pres (evs : List Ev) (s : HState) (h : cmdDead s = true) :
    cmdDead (List.foldl step s evs) = true := by
  induction evs generalizing s with
  | nil => exact h
  | cons e es ih => exact ih (step s e) (step_cmdDead_pres s e h)

theorem foldl_terminal_dead (evs : List Ev) (s : HState) (hs : cmdStarted s = true)
    (ht : evs.any isTerminalEv = true) : cmdDead (List.foldl step s evs) = true := by
  induction evs generalizing s with
  | nil => exact absurd ht (by decide)
  | cons e es ih =>
    rw [List.foldl_cons]
    rw [List.any_cons, Bool.or_eq_true] at ht
    by_cases he : isTerminalEv e = true
    · exact foldl_dead_pres es (step s e) (step_terminal_dead s e hs he)
    · have hes : es.any isTerminalEv = true := ht.resolve_left he
      exact ih (step s e) (step_cmdStarted s e hs) hes

theorem statesFrom_startCount (evs : List Ev) (s t : HState) (h : t ∈ statesFrom s evs) :
    t.startCount = s.startCount := by
  induction evs generalizing s with
  | nil =>
    rw [statesFrom, List.mem_singleton] at h
    rw [h]
  | cons e es ih =>
    rw [statesFrom, List.mem_cons] at h
    cases h with
    | inl h => rw [h]
    | inr h => rw [ih (step s e) h, step_startCount]

theorem aliveCount_le (s : HState) : aliveCount s ≤ 1 := by
  cases hc : s.cmd with
  | none => simp [aliveCount, hc]
  | some inv => simp [aliveCount, hc]; split_ifs <;> decide

theorem runSetup_startCount (env : Env) : (runSetup env).1.startCount ≤ 1 := by
  obtain ⟨u, po, oo, wt, evs⟩ := env
  cases u <;> cases po <;> cases oo <;> cases wt <;>
    simp [runSetup, sendStatus_startCount, initState]

theorem runSetup_started (env : Env) : cmdStarted (runSetup env).1 = true := by
  obtain ⟨u, po, oo, wt, evs⟩ := env
  cases u <;> cases po <;> cases oo <;> cases wt <;> rfl

theorem statesAll_startCount (env : Env) (t : HState) (h : t ∈ statesAll env) :
    t.startCount ≤ 1 := by
  unfold statesAll at h
  rcases List.mem_cons.mp h with h1 | h2
  · rw [h1]; decide
  · by_cases hw : (runSetup env).2 = true
    · rw [if_pos hw] at h2
      rw [statesFrom_startCount env.events _ t h2]
      exact runSetup_startCount env
    · rw [if_neg hw] at h2
      rw [List.mem_singleton] at h2
      rw [h2]
      exact runSetup_startCount env

theorem sendStatus_sent (s : HState) (c : Nat) (h : s.headersSent = true) :
    sendStatusIfUnsent s c = s := by
  rw [sendStatusIfUnsent, if_pos h]

theorem sendStatus_unsent (s : HState) (c : Nat) (h : s.headersSent = false) :
    sendStatusIfUnsent s c = { s with statusCode := some c, headersSent := true } := by
  rw [sendStatusIfUnsent, if_neg]
  rw [h]
  exact Bool.false_ne_true

theorem step_engineError_conn (s : HState) (hc : s.clientConnected = true) :
    step s Ev.engineError =
      { sendStatusIfUnsent { s with faultSurfaced := true } 500 with
        cmd := (cleanup s.cmd).1, resEnded := true } := by
  rw [step, if_pos hc]

theorem step_engineError_disc (s : HState) (hc : s.clientConnected = false) :
    step s Ev.engineError = { s with cmd := (cleanup s.cmd).1, resEnded := true } := by
  rw [step, if_neg]
  rw [hc]
  exact Bool.false_ne_true

/-! ## Claim theorems -/

/-- Claim C1: for every request environment, every state the handler passes
through has created at most one transcoding invocation and holds at most one
alive invocation; and on every termination path (natural completion, upstream
fetch error, input stream error, engine error, unhandled exception from the
wiring) the kill action has been applied before the handler state is
discarded, so no invocation is left alive at the end of the run. -/
theorem relay_one_invocation_killed_before_discard (env : Env) :
    (∀ t ∈ statesAll env, t.startCount ≤ 1 ∧ aliveCount t ≤ 1) ∧
    (reachesTerminal env = true → cmdDead (run env) = true) := by
  constructor
  · intro t ht
    exact ⟨statesAll_startCount env t ht, aliveCount_le t⟩
  · intro h
    obtain ⟨u, po, oo, wt, evs⟩ := env
    cases u with
    | false => rfl
    | true =>
      cases po with
      | false => rfl
      | true =>
        cases oo with
        | false => rfl
        | true =>
          cases wt with
          | true => rfl
          | false =>
            have ht : evs.any isTerminalEv = true := by
              simpa [reachesTerminal] using h
            exact foldl_terminal_dead evs _ rfl ht

/-- Witness for C1 at the concrete environment `envEndOk` (pipeline wired,
engine completes naturally). -/
theorem relay_one_invocation_killed_before_discard_witness :
    (initState.startCount ≤ 1 ∧ aliveCount initState ≤ 1) ∧
    reachesTerminal envEndOk = true ∧ cmdDead (run envEndOk) = true :=
  ⟨(relay_one_invocation_killed_before_discard envEndOk).1 initState (by decide),
   by decide,
   (relay_one_invocation_killed_before_discard envEndOk).2 (by decide)⟩

/-- Counterexample to claim C2: in the concrete run `envDisconnect` the client
disconnect is observed (the connected flag is recorded as false) and two
further engine output chunks still flow afterwards, yet at the end of the run
the invocation is alive — the disconnect listener alone never terminates the
engine, so the engine is not killed within any bounded interval of the
disconnect and bytes keep being processed. -/
theorem client_disconnect_not_killed_cex :
    (run envDisconnect).clientConnected = false ∧
    (run envDisconnect).bodyChunks = 2 ∧
    cmdDead (run envDisconnect) = false := by decide

/-- Claim C2 as amended: the disconnect listener only records the
client-disconnected flag (the command, the status and the forwarded byte count
are untouched); the engine is terminated only when a subsequent engine error
event is delivered — in practice provoked by the broken output pipe — at which
point the handler suppresses the error (no fault surfaced, no status change)
and the cleanup kills the invocation. -/
theorem close_records_flag_kill_on_engine_error (s : HState)
    (hs : cmdStarted s = true) :
    (step s Ev.close).clientConnected = false ∧
    (step s Ev.close).cmd = s.cmd ∧
    (step s Ev.close).statusCode = s.statusCode ∧
    (step s Ev.close).bodyChunks = s.bodyChunks ∧
    cmdDead (step (step s Ev.close) Ev.engineError) = true ∧
    (step (step s Ev.close) Ev.engineError).faultSurfaced = s.faultSurfaced ∧
    (step (step s Ev.close) Ev.engineError).statusCode = s.statusCode := by
  rw [cmdStarted] at hs
  refine ⟨rfl, rfl, rfl, rfl, ?_, rfl, rfl⟩
  exact optDead_cleanup _ hs

/-- Witness for the amended C2 at the concrete pre-disconnect state `stWired`. -/
theorem close_records_flag_kill_on_engine_error_witness :
    (step stWired Ev.close).clientConnected = false ∧
    (step stWired Ev.close).cmd = stWired.cmd ∧
    (step stWired Ev.close).statusCode = stWired.statusCode ∧
    (step stWired Ev.close).bodyChunks = stWired.bodyChunks ∧
    cmdDead (step (step stWired Ev.close) Ev.engineError) = true ∧
    (step (step stWired Ev.close) Ev.engineError).faultSurfaced = stWired.faultSurfaced ∧
    (step (step stWired Ev.close) Ev.engineError).statusCode = stWired.statusCode :=
  close_records_flag_kill_on_engine_error stWired (by decide)

/-- Claim C3: when the engine emits an error event, if the response headers
were already sent the status code is not altered, the response is ended and
the invocation is killed; if headers were unsent and the client is still
connected a 500 status is sent; if the client had already disconnected the
error is suppressed (no fault surfaced, no error response) and the invocation
is still killed. -/
theorem engine_error_dispatch (s : HState) (hs : cmdStarted s = true) :
    (s.headersSent = true →
      (step s Ev.engineError).statusCode = s.statusCode ∧
      (step s Ev.engineError).resEnded = true ∧
      cmdDead (step s Ev.engineError) = true) ∧
    (s.headersSent = false → s.clientConnected = true →
      (step s Ev.engineError).statusCode = some 500 ∧
      cmdDead (step s Ev.engineError) = true) ∧
    (s.clientConnected = false →
      (step s Ev.engineError).statusCode = s.statusCode ∧
      (step s Ev.engineError).faultSurfaced = s.faultSurfaced ∧
      (step s Ev.engineError).headersSent = s.headersSent ∧
      cmdDead (step s Ev.engineError) = true) := by
  rw [cmdStarted] at hs
  cases hc : s.clientConnected with
  | false =>
    have hstep := step_engineError_disc s hc
    refine ⟨fun h1 => ?_, fun h1 h2 => absurd h2 (by decide), fun h1 => ?_⟩
    · rw [hstep]
      exact ⟨rfl, rfl, optDead_cleanup _ hs⟩
    · rw [hstep]
      exact ⟨rfl, rfl, rfl, optDead_cleanup _ hs⟩
  | true =>
    cases hh : s.headersSent with
    | true =>
      have hstep := step_engineError_conn s hc
      rw [sendStatus_sent { s with faultSurfaced := true } 500 hh] at hstep
      refine ⟨fun h1 => ?_, fun h1 h2 => absurd h1 (by decide),
        fun h1 => absurd h1 (by decide)⟩
      rw [hstep]
      exact ⟨rfl, rfl, optDead_cleanup _ hs⟩
    | false =>
      have hstep := step_engineError_conn s hc
      rw [sendStatus_unsent { s with faultSurfaced := true } 500 hh] at hstep
      refine ⟨fun h1 => absurd h1 (by decide), fun h1 h2 => ?_,
        fun h1 => absurd h1 (by decide)⟩
      rw [hstep]
      exact ⟨rfl, optDead_cleanup _ hs⟩

/-- Witness for C3 at the concrete mid-stream state `stStreaming` (headers
already sent, client connected). -/
theorem engine_error_dispatch_witness :
    (step stStreaming Ev.engineError).statusCode = stStreaming.statusCode ∧
    (step stStreaming Ev.engineError).resEnded = true ∧
    cmdDead (step stStreaming Ev.engineError) = true :=
  (engine_error_dispatch stStreaming (by decide)).1 rfl

/-- Claim C4: for every request whose metadata probe fails (the embedding
collapses a throw, a timeout and a status at or above 400 into `probeOk =
false`), the response status is 500, no video response headers and no body
bytes were sent before that status, the stream open is never issued and the
transcoding engine is never invoked. -/
theorem probe_failure_responds_500 (oo wt : Bool) (evs : List Ev) :
    (run ⟨true, false, oo, wt, evs⟩).statusCode = some 500 ∧
    (run ⟨true, false, oo, wt, evs⟩).videoHeadersSet = false ∧
    (run ⟨true, false, oo, wt, evs⟩).bodyChunks = 0 ∧
    (run ⟨true, false, oo, wt, evs⟩).openIssued = false ∧
    (run ⟨true, false, oo, wt, evs⟩).startCount = 0 :=
  ⟨rfl, rfl, rfl, rfl, rfl⟩

/-- Claim C5: for every request in which the url query parameter is missing,
the response status is 400, no upstream request (probe or stream open) is
issued and no transcoding invocation is created. -/
theorem missing_url_responds_400 (po oo wt : Bool) (evs : List Ev) :
    (run ⟨false, po, oo, wt, evs⟩).statusCode = some 400 ∧
    (run ⟨false, po, oo, wt, evs⟩).probeIssued = false ∧
    (run ⟨false, po, oo, wt, evs⟩).openIssued = false ∧
    (run ⟨false, po, oo, wt, evs⟩).startCount = 0 :=
  ⟨rfl, rfl, rfl, rfl⟩

/-- Claim C6: the cleanup action never lets an exception escape, invoking it a
second time on the resulting state changes nothing beyond the first
invocation, and invoking it on an invocation that already completed (its
process no longer alive) is a no-op that does not raise. -/
theorem cleanup_idempotent_and_safe (cmd : Option Invocation) :
    (cleanup cmd).2 = false ∧
    cleanup ((cleanup cmd).1) = cleanup cmd ∧
    (∀ p, cleanup (some ⟨p, false⟩) = (some ⟨p, false⟩, false)) := by
  refine ⟨?_, ?_, ?_⟩
  · rcases cmd with _ | ⟨p, a⟩
    · rfl
    · cases p <;> cases a <;> rfl
  · rcases cmd with _ | ⟨p, a⟩
    · rfl
    · cases p <;> cases a <;> rfl
  · intro p
    cases p <;> rfl

/-- Claim C7 counterexample: on the header value `filename=""` the resolver
captures the two-character quoted token, strips both quotes and returns the
empty string for every URL — so the result is neither non-empty nor does it
end in a recognized video extension, refuting the claim for header-derived
names. -/
theorem resolver_empty_name_cex :
    getFileName (some "filename=\"\"") "http://example.com/v.mp4" = "" ∧
    goodName (getFileName (some "filename=\"\"") "http://example.com/v.mp4").data = false := by
  constructor
  · decide
  · decide

/-- Claim C7 as amended: whenever no filename token is extracted from the
header (header absent, pattern mismatch, or empty capture), the resolver
returns a non-empty name ending — up to ASCII letter case — in one of the
recognized video extensions; header-derived tokens are exempt from this
guarantee (they are returned as captured, see claim C10). -/
theorem resolver_fallback_good (cd : Option (List Char)) (url : List Char)
    (h : extractToken cd = none) : goodName (getFileNameL cd url) = true := by
  rw [getFileNameL, h]
  exact urlFallbackName_good url

/-- Witness for the amended C7: a header-less request with an extension-less
URL path. -/
theorem resolver_fallback_good_witness :
    extractToken none = none ∧
    goodName (getFileNameL none ("http://h/clip".data)) = true :=
  ⟨rfl, resolver_fallback_good none ("http://h/clip".data) rfl⟩

/-- Claim C8: the resolver is a total function (the embedding of the
try/catch), and whenever the URL branch is reached and URL parsing fails, it
returns the fixed default name video.mp4. -/
theorem resolver_parse_failure_default (cd : Option (List Char)) (url : List Char)
    (h1 : extractToken cd = none) (h2 : urlPathname url = none) :
    getFileNameL cd url = "video.mp4".data := by
  rw [getFileNameL, h1, urlFallbackName, h2]

/-- Witness for C8 at a malformed URL. -/
theorem resolver_parse_failure_default_witness :
    extractToken none = none ∧
    urlPathname ("not a url".data) = none ∧
    getFileNameL none ("not a url".data) = "video.mp4".data :=
  ⟨rfl, by decide, resolver_parse_failure_default none ("not a url".data) rfl (by decide)⟩

/-- Claim C9: the progress handler never raises a JS error on any payload —
including a missing payload and a payload with an undefined completion
fraction, on which it does nothing. -/
theorem progress_never_throws (p : Option Progress) (conn : Bool) :
    (∃ r, onProgress p conn = Except.ok r) ∧
    onProgress none conn = Except.ok none ∧
    onProgress (some ⟨none⟩) conn = Except.ok none := by
  refine ⟨?_, rfl, rfl⟩
  cases p with
  | none => exact ⟨none, rfl⟩
  | some pr =>
    obtain ⟨pc⟩ := pr
    cases pc with
    | none => exact ⟨none, rfl⟩
    | some x =>
      cases conn with
      | false => exact ⟨none, rfl⟩
      | true => exact ⟨some ((round (x * 100) : ℚ) / 100), rfl⟩

/-- Claim C10: when a filename token is captured from the header, the resolver
returns it with every single- and double-quote character deleted (anywhere in
the token, not only a surrounding pair), so the result never contains a quote
character; and the result is independent of the URL — no video-extension
normalization is applied to header-derived names. -/
theorem header_token_returned_asis (cd : Option (List Char)) (url url2 tok : List Char)
    (h : extractToken cd = some tok) :
    getFileNameL cd url = stripQuotes tok ∧
    getFileNameL cd url = getFileNameL cd url2 ∧
    ∀ c ∈ getFileNameL cd url, c ≠ squote ∧ c ≠ dquote := by
  have e1 : getFileNameL cd url = stripQuotes tok := by rw [getFileNameL, h]
  have e2 : getFileNameL cd url2 = stripQuotes tok := by rw [getFileNameL, h]
  refine ⟨e1, e1.trans e2.symm, ?_⟩
  rw [e1]
  intro c hc
  have h2 := (List.mem_filter.mp hc).2
  simpa using h2

/-- Witness for C10 at a quoted header token containing a space and a
non-default extension. -/
theorem header_token_returned_asis_witness :
    extractToken (some ("attachment; filename=\"my video.mkv\"".data)) =
      some ("\"my video.mkv\"".data) ∧
    getFileNameL (some ("attachment; filename=\"my video.mkv\"".data)) ("http://h/a".data) =
      stripQuotes ("\"my video.mkv\"".data) :=
  ⟨by decide,
   (header_token_returned_asis (some ("attachment; filename=\"my video.mkv\"".data))
     ("http://h/a".data) ("http://h/b".data) ("\"my video.mkv\"".data) (by decide)).1⟩

end Comoe
